import Mathlib

/-!
Verification of the hummingbird proxy client core (`client` package) and the
S3 V2 auth preparation middleware (`proxyserver/middleware/s3auth.go`).

The Go source is shallowly embedded: HTTP headers become association lists
keyed by canonical MIME header keys (as Go's `net/http` stores them),
statuses become `Nat`, channel-driven dispatch loops become fuel-indexed
recursive functions whose nondeterminism (arrival order, timeouts) is an
explicit input parameter.
-/

namespace Hummingbird

/-! ## Go string helpers -/

/-- Byte-wise (ASCII) lexicographic comparison of character lists, embedding
Go's `<` on strings (all strings in scope are ASCII). -/
def charListLe : List Char → List Char → Bool
  | [], _ => true
  | _ :: _, [] => false
  | a :: as, b :: bs =>
    if a.toNat < b.toNat then true
    else if b.toNat < a.toNat then false
    else charListLe as bs

/-- Go `<=` on (ASCII) strings, as used by `sort.Strings`. -/
def strLe (a b : String) : Bool := charListLe a.toList b.toList

/-- Insert a string into an already sorted list (helper for `sortStrings`). -/
def insertSorted (x : String) : List String → List String
  | [] => [x]
  | y :: ys => if strLe x y then x :: y :: ys else y :: insertSorted x ys

/-- Embeds Go's `sort.Strings` (ascending byte-lexicographic order). -/
def sortStrings : List String → List String
  | [] => []
  | x :: xs => insertSorted x (sortStrings xs)

/-- `startsWith`, computed on character lists (ASCII strings only). -/
def strStarts (s p : String) : Bool := p.toList.isPrefixOf s.toList

/-- Embeds Go's `strings.TrimPrefix`. -/
def goTrimLeft (p s : String) : String :=
  if strStarts s p then String.mk (s.toList.drop p.toList.length) else s

/-- Embeds Go's `strings.ToLower` for ASCII strings. -/
def lowerStr (s : String) : String := String.mk (s.toList.map Char.toLower)

/-- Embeds Go's `strings.Split(s, sep)` for a one-character separator. -/
def splitOnCharAux (c : Char) : List Char → List Char → List String
  | cur, [] => [String.mk cur.reverse]
  | cur, x :: xs =>
    if x == c then String.mk cur.reverse :: splitOnCharAux c [] xs
    else splitOnCharAux c (x :: cur) xs

/-- Split a string on every occurrence of the character `c` (Go
`strings.Split` with a one-byte separator). -/
def splitOnChar (c : Char) (s : String) : List String :=
  splitOnCharAux c [] s.toList

/-- Valid MIME header token characters, per Go's
`net/textproto` `validHeaderFieldByte` table. -/
def isTokenChar (c : Char) : Bool :=
  c.isAlpha || c.isDigit ||
    ['!', '#', '$', '%', '&', Char.ofNat 39, '*', '+', '-', '.', '^', '_',
      Char.ofNat 96, '|', '~'].contains c

/-- Case-map the characters of a MIME key: uppercase at the start and after
each hyphen, lowercase elsewhere (Go `textproto.canonicalMIMEHeaderKey`). -/
def canonChars : Bool → List Char → List Char
  | _, [] => []
  | up, c :: rest =>
    let c2 := if up then c.toUpper else c.toLower
    c2 :: canonChars (c2 == '-') rest

/-- Embeds Go's `textproto.CanonicalMIMEHeaderKey`: keys containing an
invalid byte are returned unchanged, otherwise they are canonical-cased.
`net/http` applies this to every key stored in or read from `http.Header`. -/
def canonMIMEKey (s : String) : String :=
  if s.toList.all isTokenChar then String.mk (canonChars true s.toList) else s

/-! ## http.Header model

`http.Header` is `map[string][]string` keyed by canonical MIME keys; we use
an association list whose keys are kept canonical by `set`/`add`. -/

/-- Model of Go's `http.Header`. -/
def Headers : Type := List (String × List String)

instance : DecidableEq Headers := by
  unfold Headers
  infer_instance

/-- The empty header map. -/
def Headers.empty : Headers := ([] : List (String × List String))

/-- All values stored under the exact key `k` (Go map index `h[k]`,
no canonicalization). -/
def Headers.getAll (h : Headers) (k : String) : List String :=
  match h.find? (fun e => e.1 == k) with
  | some e => e.2
  | none => []

/-- Embeds `http.Header.Get`: first value under the canonical key, `""` when
absent. -/
def Headers.get (h : Headers) (k : String) : String :=
  match (Headers.getAll h (canonMIMEKey k)).head? with
  | some v => v
  | none => ""

/-- Embeds `http.Header.Set`: replace all values under the canonical key. -/
def Headers.set (h : Headers) (k v : String) : Headers :=
  (((canonMIMEKey k), [v]) ::
    (h : List (String × List String)).filter (fun e => !(e.1 == canonMIMEKey k)) :
    List (String × List String))

/-- The list of keys of the header map (Go `for k := range h`; the random
range order is irrelevant wherever we use this, because the consumers sort
or rebuild a map). -/
def Headers.keys (h : Headers) : List String :=
  (h : List (String × List String)).map (fun e => e.1)

/-! ## S3 V2 auth preparation middleware (`s3auth.go`) -/

/-- The `S3Subresources` allowlist from `s3auth.go` (the map's key set). -/
def S3Subresources : List String :=
  ["acl", "delete", "lifecycle", "location", "logging", "notification",
   "partNumber", "policy", "requestPayment", "torrent", "uploads",
   "uploadId", "versionId", "versioning", "versions", "website",
   "response-cache-control", "response-content-disposition",
   "response-content-encoding", "response-content-language",
   "response-content-type", "response-expires", "cors", "tagging",
   "restore"]

/-- Embeds the canonical string-to-sign construction of
`s3AuthHandler.ServeHTTP` (s3auth.go lines 124-168): method, Content-MD5,
Content-Type, Date (suppressed when any x-amz-date header is present), the
sorted `x-amz-*` header lines, the URL path, and the filtered+sorted signable
query tokens. -/
def stringToSign (method : String) (hdrs : Headers) (path rawQuery : String) : String :=
  let datePart : String :=
    if ¬(Headers.get hdrs "x-amz-date" == "") then "\n"
    else Headers.get hdrs "Date" ++ "\n"
  let akeys : List String :=
    (Headers.keys hdrs).filter (fun k => strStarts (lowerStr k) "x-amz-")
  let amzLines : String :=
    String.join ((sortStrings akeys).map (fun k =>
      String.join ((Headers.getAll hdrs k).map (fun v =>
        lowerStr k ++ ":" ++ v ++ "\n"))))
  let queryPart : String :=
    if ¬(rawQuery == "") then
      let queryParts := splitOnChar '&' rawQuery
      let signable := queryParts.filter (fun v => S3Subresources.contains v)
      let sorted := sortStrings signable
      if 0 < sorted.length then "?" ++ String.intercalate "&" sorted else ""
    else ""
  method ++ "\n" ++ Headers.get hdrs "Content-MD5" ++ "\n" ++
    Headers.get hdrs "Content-Type" ++ "\n" ++ datePart ++ amzLines ++
    path ++ queryPart

/-! ## Quorum dispatcher (`stdQuorumer`)

The channel-driven decision loop of `stdQuorumer.getResponse` is embedded as
a fuel-indexed recursion.  Nondeterministic timing is made explicit:
`pending` is the list of statuses that arrive on `responsec` before the
respective waits time out (an empty `pending` at a wait = the timeout fires
first), and `grace` bounds how many further responses arrive inside the
100 ms post-quorum window. -/

/-- Embeds `int(math.Ceil(float64(replicaCount) / 2.0))` from `newQuorumer`. -/
def quorumThreshold (replicaCount : Nat) : Nat := (replicaCount + 1) / 2

/-- The dispatcher-side state of a `stdQuorumer`: the quorum threshold `q`,
the number of spawned workers (`len(q.workers)`), the responses received so
far (status codes, arrival order), the response-class tally
(`responseClassCounts`, an array indexed by status/100 — a total function
here), and the statuses still to arrive on `responsec`. -/
structure QuorumState where
  q : Nat
  numWorkers : Nat
  responses : List Nat
  classCounts : Nat → Nat
  pending : List Nat

/-- Embeds `stdQuorumer.addResponse`: append the response; tally its class
only when the status is below 500 (the Go guard `StatusCode >= 500 ||
StatusCode < 0` — statuses are `Nat` here, so the negative case is absent). -/
def QuorumState.addResponse (st : QuorumState) (status : Nat) : QuorumState :=
  let st1 := { st with responses := st.responses ++ [status] }
  if 500 ≤ status then st1
  else { st1 with
          classCounts := fun k =>
            if k = status / 100 then st1.classCounts k + 1 else st1.classCounts k }

/-- Embeds the post-quorum grace loop of `getResponse` (`finalizeTimeout`):
keep absorbing arrivals while some worker is outstanding, for at most
`grace` arrivals; an empty `pending` or an exhausted `grace` is the timeout
firing. -/
def QuorumState.finalize : QuorumState → Nat → QuorumState
  | st, 0 => st
  | st, grace + 1 =>
    if st.responses.length < st.numWorkers then
      match st.pending with
      | [] => st
      | p :: rest => QuorumState.finalize (QuorumState.addResponse { st with pending := rest } p) grace
    else st

/-- The value `stdQuorumer.getResponse` returns: a response drawn from the
received list, or the synthetic 503 `ResponseStub`. -/
inductive QResult where
  | found (status : Nat)
  | stub503
deriving DecidableEq, Repr

/-- Embeds the decision loop of `stdQuorumer.getResponse`: up to one
iteration per worker, each scanning for a response whose class tally has
reached `q` (then absorbing the grace window and returning it), bailing out
with a synthetic 503 when no class can still reach `q`, and otherwise
waiting for the next arrival (an empty `pending` is the 30 s
`getResponseTimeout` firing). -/
def getResponseLoop (grace : Nat) : Nat → QuorumState → QResult × QuorumState
  | 0, st => (QResult.stub503, st)
  | fuel + 1, st =>
    let outstanding := st.numWorkers - st.responses.length
    match st.responses.find? (fun r => st.q ≤ st.classCounts (r / 100)) with
    | some r => (QResult.found r, st.finalize grace)
    | none =>
      let quorumPossible :=
        (List.range 6).any (fun k => st.q ≤ st.classCounts k + outstanding)
      if quorumPossible then
        if 0 < outstanding then
          match st.pending with
          | [] => (QResult.stub503, st)
          | p :: rest =>
            getResponseLoop grace fuel (QuorumState.addResponse { st with pending := rest } p)
        else getResponseLoop grace fuel st
      else (QResult.stub503, st)

/-- The state of a fresh quorumer as built by `newQuorumer`: empty response
list, all-zero tally, threshold `⌈replicaCount/2⌉`. -/
def initQuorumState (replicaCount numWorkers : Nat) (pending : List Nat) : QuorumState :=
  { q := quorumThreshold replicaCount
    numWorkers := numWorkers
    responses := []
    classCounts := fun _ => 0
    pending := pending }

/-- A whole `getResponse` call on a fresh quorumer (the loop runs
`len(q.workers)` iterations). -/
def quorumGetResponse (replicaCount numWorkers grace : Nat) (pending : List Nat) :
    QResult × QuorumState :=
  getResponseLoop grace numWorkers (initQuorumState replicaCount numWorkers pending)

theorem addResponse_q (st : QuorumState) (s : Nat) :
    (st.addResponse s).q = st.q := by
  unfold QuorumState.addResponse
  split <;> rfl

theorem addResponse_counts_le (st : QuorumState) (s k : Nat) :
    st.classCounts k ≤ (st.addResponse s).classCounts k := by
  unfold QuorumState.addResponse
  split
  · exact Nat.le_refl _
  · simp only
    split <;> omega

theorem finalize_q (st : QuorumState) (grace : Nat) :
    (st.finalize grace).q = st.q := by
  induction grace generalizing st with
  | zero => rfl
  | succ g ih =>
    unfold QuorumState.finalize
    split
    · split
      · rfl
      · rw [ih, addResponse_q]
    · rfl

theorem finalize_counts_le (st : QuorumState) (grace k : Nat) :
    st.classCounts k ≤ (st.finalize grace).classCounts k := by
  induction grace generalizing st with
  | zero => exact Nat.le_refl _
  | succ g ih =>
    unfold QuorumState.finalize
    split
    · split
      · exact Nat.le_refl _
      · rename_i p rest heq
        exact Nat.le_trans (addResponse_counts_le { st with pending := rest } p k) (ih _)
    · exact Nat.le_refl _

theorem getResponseLoop_found (grace : Nat) :
    ∀ (fuel : Nat) (st : QuorumState) (r : Nat) (final : QuorumState),
      getResponseLoop grace fuel st = (QResult.found r, final) →
      final.q = st.q ∧ st.q ≤ final.classCounts (r / 100) := by
  intro fuel
  induction fuel with
  | zero =>
    intro st r final h
    simp only [getResponseLoop] at h
    exact absurd h (by simp)
  | succ n ih =>
    intro st r final h
    simp only [getResponseLoop] at h
    split at h
    · rename_i r0 hfind
      simp only [Prod.mk.injEq, QResult.found.injEq] at h
      obtain ⟨hr, hfin⟩ := h
      have hp := List.find?_some hfind
      have hq : st.q ≤ st.classCounts (r0 / 100) := of_decide_eq_true hp
      rw [← hr, ← hfin]
      exact ⟨finalize_q st grace, Nat.le_trans hq (finalize_counts_le st grace _)⟩
    · split at h
      · split at h
        · split at h
          · exact absurd h (by simp)
          · have := ih _ _ _ h
            rw [addResponse_q] at this
            exact this
        · exact ih _ _ _ h
      · exact absurd h (by simp)

/-- **C1.** For every call to the quorum dispatcher over a ring with replica
count `R` and any sequence of final worker responses (any arrival schedule
`pending`/`grace`, any worker count), the response `getResponse` returns
either belongs to a status class whose tally count at the moment of return
is at least `q = ⌈R/2⌉` — the tally counting only responses with status
below 500 — or is the synthetic 503 stub. -/
theorem quorum_returns_class_at_threshold_or_503
    (R numWorkers grace : Nat) (pending : List Nat) :
    match quorumGetResponse R numWorkers grace pending with
    | (QResult.found r, final) => quorumThreshold R ≤ final.classCounts (r / 100)
    | (QResult.stub503, _) => True := by
  cases hrun : quorumGetResponse R numWorkers grace pending with
  | mk res final =>
    cases res with
    | stub503 => simp
    | found r =>
      exact (getResponseLoop_found grace numWorkers
        (initQuorumState R numWorkers pending) r final hrun).2

/-! ## First-good-response dispatcher (`ProxyDirectClient.firstResponse`)

The loop fires one attempt per iteration and then waits (select) for either
any outstanding response on the shared `success` channel or the 1 s
per-attempt deadline.  The embedding makes the channel nondeterminism
explicit: `events` lists, per executed select, what that select yielded — a
deadline (`timeout`), a transport failure (`got none`), or a response
(`got (some r)`); an exhausted `events` list means every remaining select
times out. -/

/-- A `ring.Device`. -/
structure Device where
  ip : String
  port : Int
  device : String
deriving DecidableEq, Repr

instance : Repr Headers := by
  unfold Headers
  infer_instance

/-- A backend HTTP response as seen by the dispatcher (status + headers). -/
structure FResponse where
  status : Nat
  headers : Headers
deriving DecidableEq, Repr

/-- What one select of the dispatcher loop yields. -/
inductive FEvent where
  | timeout
  | got (r : Option FResponse)
deriving DecidableEq, Repr

/-- The dispatcher's return value: a (transformed) backend response, or a
synthetic `ResponseStub`. -/
inductive FResult where
  | real (r : FResponse)
  | stub (status : Nat)
deriving DecidableEq, Repr

/-- The Go terminal-success test
`resp.StatusCode/100 == 2 || resp.StatusCode == 412 || resp.StatusCode ==
304 || resp.StatusCode == 416` from `firstResponse`. -/
def isTerminalStatus (s : Nat) : Bool :=
  s / 100 == 2 || s == 412 || s == 304 || s == 416

/-- Embeds Go's `strings.Trim(s, cutset)` for a one-character cutset: drop
every leading and trailing occurrence of `c`. -/
def goTrimChar (s : String) (c : Char) : String :=
  String.mk (((s.toList.dropWhile (fun x => x == c)).reverse.dropWhile
    (fun x => x == c)).reverse)

/-- The double-quote character (used by the Etag unquoting). -/
def dquote : Char := Char.ofNat 34

/-- Embeds the terminal-success header normalization of `firstResponse`:
`Set("Accept-Ranges", "bytes")`, then strip the surrounding double quotes
from a non-empty `Etag`. -/
def transformSuccess (r : FResponse) : FResponse :=
  if ¬(Headers.get (Headers.set r.headers "Accept-Ranges" "bytes") "Etag" == "") then
    { r with headers :=
        (Headers.set (Headers.set r.headers "Accept-Ranges" "bytes") "Etag"
          (goTrimChar
            (Headers.get (Headers.set r.headers "Accept-Ranges" "bytes") "Etag")
            dquote)) }
  else { r with headers := Headers.set r.headers "Accept-Ranges" "bytes" }

/-- Observable bookkeeping of one `firstResponse` dispatch: the
`internalErrors` counter, how many backend requests were fired
(`client.Do` goroutines), the devices drawn from the ring, and the non-nil
responses received on the `success` channel. -/
structure FState where
  internalErrors : Nat
  issued : Nat
  drawn : List Device
  received : List FResponse
deriving DecidableEq, Repr

/-- The failure synthesis at the end of `firstResponse`: synthetic 503 when
`internalErrors >= ReplicaCount()`, else synthetic 404. -/
def firstFinish (replicaCount : Nat) (st : FState) : FResult :=
  if replicaCount ≤ st.internalErrors then FResult.stub 503 else FResult.stub 404

/-- Embeds the attempt loop of `firstResponse`.  `pre` is the shuffled
primaries followed by the devices the handoff iterator yields (the Go loop
indexes primaries by `requestCount` and calls `more.Next()` exactly once per
iteration past them, so iteration `rc` draws `pre[rc]`; `none` is the
iterator exhausted → `break`).  `factoryOk dev = false` is `devToRequest`
returning an error (`internalErrors++; continue` — note: no select).
`fuel` counts the remaining iterations of `requestCount < ReplicaCount()+2`. -/
def frLoop (replicaCount : Nat) (pre : List Device) (factoryOk : Device → Bool) :
    Nat → Nat → List FEvent → FState → FResult × FState
  | 0, _, _, st => (firstFinish replicaCount st, st)
  | fuel + 1, rc, events, st =>
    match pre.get? rc with
    | none => (firstFinish replicaCount st, st)
    | some dev =>
      let st1 := { st with drawn := st.drawn ++ [dev] }
      if factoryOk dev then
        let st2 := { st1 with issued := st1.issued + 1 }
        match events with
        | [] => frLoop replicaCount pre factoryOk fuel (rc + 1) [] st2
        | FEvent.timeout :: rest =>
          frLoop replicaCount pre factoryOk fuel (rc + 1) rest st2
        | FEvent.got none :: rest =>
          frLoop replicaCount pre factoryOk fuel (rc + 1) rest
            { st2 with internalErrors := st2.internalErrors + 1 }
        | FEvent.got (some r) :: rest =>
          let st3 := { st2 with received := st2.received ++ [r] }
          if isTerminalStatus r.status then (FResult.real (transformSuccess r), st3)
          else
            let st4 :=
              if r.status / 100 == 5 then
                { st3 with internalErrors := st3.internalErrors + 1 }
              else st3
            frLoop replicaCount pre factoryOk fuel (rc + 1) rest st4
      else
        frLoop replicaCount pre factoryOk fuel (rc + 1) events
          { st1 with internalErrors := st1.internalErrors + 1 }

/-- A whole `firstResponse` dispatch: `devs` are the primaries after the
in-place shuffle, `handoffs` the successive values of `more.Next()`. -/
def firstResponseRun (replicaCount : Nat) (devs handoffs : List Device)
    (factoryOk : Device → Bool) (events : List FEvent) : FResult × FState :=
  frLoop replicaCount (devs ++ handoffs) factoryOk (replicaCount + 2) 0 events
    { internalErrors := 0, issued := 0, drawn := [], received := [] }

theorem find?_filter_of_imp {α : Type} (p q : α → Bool) (l : List α)
    (himp : ∀ e, p e = true → q e = true) :
    List.find? p (l.filter q) = List.find? p l := by
  induction l with
  | nil => rfl
  | cons a l ih =>
    by_cases hq : q a = true
    · rw [List.filter_cons_of_pos hq]
      by_cases hp : p a = true
      · rw [List.find?_cons_of_pos _ hp, List.find?_cons_of_pos _ hp]
      · rw [List.find?_cons_of_neg _ (by simpa using hp),
          List.find?_cons_of_neg _ (by simpa using hp), ih]
    · rw [List.filter_cons_of_neg (by simpa using hq)]
      have hp : ¬ p a = true := fun hpa => hq (himp a hpa)
      rw [List.find?_cons_of_neg _ (by simpa using hp), ih]

theorem Headers.get_set_same (h : Headers) (k v : String) :
    Headers.get (Headers.set h k v) k = v := by
  simp [Headers.get, Headers.set, Headers.getAll, List.find?_cons_of_pos]

theorem Headers.get_set_ne (h : Headers) (k1 v k2 : String)
    (hk : ¬ canonMIMEKey k2 = canonMIMEKey k1) :
    Headers.get (Headers.set h k1 v) k2 = Headers.get h k2 := by
  have hk1 : (canonMIMEKey k1 == canonMIMEKey k2) = false := by
    simp only [beq_eq_false_iff_ne, ne_eq]
    exact fun he => hk he.symm
  unfold Headers.get Headers.set Headers.getAll
  rw [List.find?_cons_of_neg _ (by simp [hk1])]
  rw [find?_filter_of_imp]
  intro e hpe
  simp only [beq_iff_eq] at hpe
  simp only [hpe, Bool.not_eq_eq_eq_not, Bool.not_true, beq_eq_false_iff_ne, ne_eq]
  exact hk

theorem transformSuccess_acceptRanges (r : FResponse) :
    Headers.get (transformSuccess r).headers "Accept-Ranges" = "bytes" := by
  unfold transformSuccess
  split
  · dsimp only
    rw [Headers.get_set_ne (Headers.set r.headers "Accept-Ranges" "bytes") "Etag"
      (goTrimChar (Headers.get (Headers.set r.headers "Accept-Ranges" "bytes") "Etag")
        dquote)
      "Accept-Ranges" (by decide)]
    exact Headers.get_set_same r.headers "Accept-Ranges" "bytes"
  · exact Headers.get_set_same r.headers "Accept-Ranges" "bytes"

theorem transformSuccess_etag (r : FResponse)
    (hne : ¬ Headers.get r.headers "Etag" = "") :
    Headers.get (transformSuccess r).headers "Etag" =
      goTrimChar (Headers.get r.headers "Etag") dquote := by
  have h1 : Headers.get (Headers.set r.headers "Accept-Ranges" "bytes") "Etag" =
      Headers.get r.headers "Etag" :=
    Headers.get_set_ne r.headers "Accept-Ranges" "bytes" "Etag" (by decide)
  unfold transformSuccess
  split
  · dsimp only
    rw [Headers.get_set_same (Headers.set r.headers "Accept-Ranges" "bytes") "Etag"
      (goTrimChar (Headers.get (Headers.set r.headers "Accept-Ranges" "bytes") "Etag")
        dquote)]
    rw [h1]
  · rename_i hcond
    rw [h1] at hcond
    exact absurd (by simpa using hcond) hne

/-- The terminal-success status set, spelled arithmetically. -/
theorem isTerminalStatus_iff (s : Nat) :
    isTerminalStatus s = true ↔
      ((200 ≤ s ∧ s < 300) ∨ s = 304 ∨ s = 412 ∨ s = 416) := by
  simp only [isTerminalStatus, Bool.or_eq_true, beq_iff_eq]
  omega

theorem frLoop_issued_le (R : Nat) (pre : List Device) (factoryOk : Device → Bool) :
    ∀ (fuel rc : Nat) (events : List FEvent) (st : FState),
      (frLoop R pre factoryOk fuel rc events st).2.issued ≤ st.issued + fuel := by
  intro fuel
  induction fuel with
  | zero =>
    intro rc events st
    simp [frLoop]
  | succ n ih =>
    intro rc events st
    simp only [frLoop]
    split
    · dsimp only
      omega
    · rename_i dev hdev
      split
      · split
        · exact Nat.le_trans (ih _ _ _) (by dsimp only; omega)
        · exact Nat.le_trans (ih _ _ _) (by dsimp only; omega)
        · exact Nat.le_trans (ih _ _ _) (by dsimp only; omega)
        · rename_i r rest
          split
          · dsimp only
            omega
          · split
            · exact Nat.le_trans (ih _ _ _) (by dsimp only; omega)
            · exact Nat.le_trans (ih _ _ _) (by dsimp only; omega)
      · exact Nat.le_trans (ih _ _ _) (by dsimp only; omega)

theorem frLoop_drawn_take (R : Nat) (pre : List Device) (factoryOk : Device → Bool) :
    ∀ (fuel rc : Nat) (events : List FEvent) (st : FState),
      st.drawn = pre.take rc →
      ∃ n, rc ≤ n ∧ n ≤ rc + fuel ∧
        (frLoop R pre factoryOk fuel rc events st).2.drawn = pre.take n := by
  intro fuel
  induction fuel with
  | zero =>
    intro rc events st hd
    exact ⟨rc, Nat.le_refl _, by omega, by simp only [frLoop]; exact hd⟩
  | succ n ih =>
    intro rc events st hd
    simp only [frLoop]
    split
    · exact ⟨rc, Nat.le_refl _, by omega, by dsimp only; exact hd⟩
    · rename_i dev hdev
      have hd1 : st.drawn ++ [dev] = pre.take (rc + 1) := by
        rw [hd, List.take_succ]
        simp [← List.get?_eq_getElem?, hdev]
      split
      · split
        · obtain ⟨m, h1, h2, h3⟩ := ih (rc + 1) []
            (FState.mk st.internalErrors (st.issued + 1) (st.drawn ++ [dev]) st.received)
            hd1
          exact ⟨m, by omega, by omega, h3⟩
        · rename_i rest
          obtain ⟨m, h1, h2, h3⟩ := ih (rc + 1) rest
            (FState.mk st.internalErrors (st.issued + 1) (st.drawn ++ [dev]) st.received)
            hd1
          exact ⟨m, by omega, by omega, h3⟩
        · rename_i rest
          obtain ⟨m, h1, h2, h3⟩ := ih (rc + 1) rest
            (FState.mk (st.internalErrors + 1) (st.issued + 1) (st.drawn ++ [dev]) st.received)
            hd1
          exact ⟨m, by omega, by omega, h3⟩
        · rename_i r rest
          split
          · exact ⟨rc + 1, by omega, by omega, by dsimp only; exact hd1⟩
          · split
            · obtain ⟨m, h1, h2, h3⟩ := ih (rc + 1) rest
                (FState.mk (st.internalErrors + 1) (st.issued + 1) (st.drawn ++ [dev])
                  (st.received ++ [r]))
                hd1
              exact ⟨m, by omega, by omega, h3⟩
            · obtain ⟨m, h1, h2, h3⟩ := ih (rc + 1) rest
                (FState.mk st.internalErrors (st.issued + 1) (st.drawn ++ [dev])
                  (st.received ++ [r]))
                hd1
              exact ⟨m, by omega, by omega, h3⟩
      · rename_i hfac
        obtain ⟨m, h1, h2, h3⟩ := ih (rc + 1) events
          (FState.mk (st.internalErrors + 1) st.issued (st.drawn ++ [dev]) st.received)
          hd1
        exact ⟨m, by omega, by omega, h3⟩

/-- **C6.** A single first-good-response dispatch issues at most
`replica_count + 2` backend requests, and the devices it draws are a prefix
of the shuffled primaries followed by the handoff iterator's output (so the
shuffled primaries are drawn first, then handoffs, stopping early once the
iterator is exhausted). -/
theorem first_response_at_most_replica_plus_two_requests
    (R : Nat) (devs handoffs : List Device) (factoryOk : Device → Bool)
    (events : List FEvent) :
    (firstResponseRun R devs handoffs factoryOk events).2.issued ≤ R + 2 ∧
    ∃ n, n ≤ R + 2 ∧
      (firstResponseRun R devs handoffs factoryOk events).2.drawn =
        (devs ++ handoffs).take n := by
  constructor
  · simpa using frLoop_issued_le R (devs ++ handoffs) factoryOk (R + 2) 0 events
      (FState.mk 0 0 [] [])
  · obtain ⟨m, h1, h2, h3⟩ := frLoop_drawn_take R (devs ++ handoffs) factoryOk
      (R + 2) 0 events (FState.mk 0 0 [] []) (by simp)
    exact ⟨m, by omega, h3⟩

theorem frLoop_stub_impl (R : Nat) (pre : List Device) (factoryOk : Device → Bool) :
    ∀ (fuel rc : Nat) (events : List FEvent) (st : FState) (s : Nat) (out : FState),
      frLoop R pre factoryOk fuel rc events st = (FResult.stub s, out) →
      s = if R ≤ out.internalErrors then 503 else 404 := by
  intro fuel
  induction fuel with
  | zero =>
    intro rc events st s out h
    simp only [frLoop, firstFinish] at h
    split at h
    · rename_i hcond
      simp only [Prod.mk.injEq, FResult.stub.injEq] at h
      rw [← h.1, ← h.2, if_pos hcond]
    · rename_i hcond
      simp only [Prod.mk.injEq, FResult.stub.injEq] at h
      rw [← h.1, ← h.2, if_neg hcond]
  | succ n ih =>
    intro rc events st s out h
    simp only [frLoop] at h
    split at h
    · simp only [firstFinish] at h
      split at h
      · rename_i hcond
        simp only [Prod.mk.injEq, FResult.stub.injEq] at h
        rw [← h.1, ← h.2, if_pos hcond]
      · rename_i hcond
        simp only [Prod.mk.injEq, FResult.stub.injEq] at h
        rw [← h.1, ← h.2, if_neg hcond]
    · rename_i dev hdev
      split at h
      · split at h
        · exact ih _ _ _ _ _ h
        · exact ih _ _ _ _ _ h
        · exact ih _ _ _ _ _ h
        · rename_i r rest
          split at h
          · exact absurd h (by simp)
          · split at h
            · exact ih _ _ _ _ _ h
            · exact ih _ _ _ _ _ h
      · exact ih _ _ _ _ _ h

/-- **C5.** When a first-good-response dispatch finishes all its attempts
without a terminal-success response, it returns a synthetic 503 exactly when
the internal-error count (request-build failures, absent/transport-failed
responses, and 5xx responses) reached the replica count, and a synthetic 404
otherwise. -/
theorem first_response_failure_503_iff_internal_errors
    (R : Nat) (devs handoffs : List Device) (factoryOk : Device → Bool)
    (events : List FEvent) :
    match firstResponseRun R devs handoffs factoryOk events with
    | (FResult.stub s, out) => s = if R ≤ out.internalErrors then 503 else 404
    | (FResult.real _, _) => True := by
  cases h : firstResponseRun R devs handoffs factoryOk events with
  | mk res out =>
    cases res with
    | real x => exact trivial
    | stub s =>
      exact frLoop_stub_impl R (devs ++ handoffs) factoryOk (R + 2) 0 events
        (FState.mk 0 0 [] []) s out h

theorem frLoop_real_impl (R : Nat) (pre : List Device) (factoryOk : Device → Bool) :
    ∀ (fuel rc : Nat) (events : List FEvent) (st : FState) (x : FResponse) (out : FState),
      frLoop R pre factoryOk fuel rc events st = (FResult.real x, out) →
      (∀ r2 ∈ st.received, isTerminalStatus r2.status = false) →
      ∃ rs r, out.received = rs ++ [r] ∧
        (∀ r2 ∈ rs, isTerminalStatus r2.status = false) ∧
        isTerminalStatus r.status = true ∧ x = transformSuccess r := by
  intro fuel
  induction fuel with
  | zero =>
    intro rc events st x out h hinv
    simp only [frLoop, firstFinish] at h
    split at h <;> exact absurd h (by simp)
  | succ n ih =>
    intro rc events st x out h hinv
    simp only [frLoop] at h
    split at h
    · simp only [firstFinish] at h
      split at h <;> exact absurd h (by simp)
    · rename_i dev hdev
      split at h
      · split at h
        · exact ih _ _ _ _ _ h (by simpa using hinv)
        · exact ih _ _ _ _ _ h (by simpa using hinv)
        · exact ih _ _ _ _ _ h (by simpa using hinv)
        · rename_i r rest
          split at h
          · rename_i hterm
            simp only [Prod.mk.injEq, FResult.real.injEq] at h
            refine ⟨st.received, r, ?_, fun r2 h2 => hinv r2 h2, hterm, h.1.symm⟩
            rw [← h.2]
          · rename_i hterm
            have hnt : isTerminalStatus r.status = false := by
              simpa using hterm
            have hinv2 : ∀ r2 ∈ st.received ++ [r], isTerminalStatus r2.status = false := by
              intro r2 h2
              rcases List.mem_append.mp h2 with h2 | h2
              · exact hinv r2 h2
              · rw [List.mem_singleton.mp h2]
                exact hnt
            split at h
            · exact ih _ _ _ _ _ h (by simpa using hinv2)
            · exact ih _ _ _ _ _ h (by simpa using hinv2)
      · exact ih _ _ _ _ _ h (by simpa using hinv)

theorem frLoop_stub_received (R : Nat) (pre : List Device) (factoryOk : Device → Bool) :
    ∀ (fuel rc : Nat) (events : List FEvent) (st : FState) (s : Nat) (out : FState),
      frLoop R pre factoryOk fuel rc events st = (FResult.stub s, out) →
      (∀ r2 ∈ st.received, isTerminalStatus r2.status = false) →
      ∀ r2 ∈ out.received, isTerminalStatus r2.status = false := by
  intro fuel
  induction fuel with
  | zero =>
    intro rc events st s out h hinv
    simp only [frLoop, firstFinish] at h
    split at h <;>
      (simp only [Prod.mk.injEq] at h; rw [← h.2]; exact hinv)
  | succ n ih =>
    intro rc events st s out h hinv
    simp only [frLoop] at h
    split at h
    · simp only [firstFinish] at h
      split at h <;>
        (simp only [Prod.mk.injEq] at h; rw [← h.2]; exact hinv)
    · rename_i dev hdev
      split at h
      · split at h
        · exact ih _ _ _ _ _ h (by simpa using hinv)
        · exact ih _ _ _ _ _ h (by simpa using hinv)
        · exact ih _ _ _ _ _ h (by simpa using hinv)
        · rename_i r rest
          split at h
          · exact absurd h (by simp)
          · rename_i hterm
            have hnt : isTerminalStatus r.status = false := by
              simpa using hterm
            have hinv2 : ∀ r2 ∈ st.received ++ [r], isTerminalStatus r2.status = false := by
              intro r2 h2
              rcases List.mem_append.mp h2 with h2 | h2
              · exact hinv r2 h2
              · rw [List.mem_singleton.mp h2]
                exact hnt
            split at h
            · exact ih _ _ _ _ _ h (by simpa using hinv2)
            · exact ih _ _ _ _ _ h (by simpa using hinv2)
      · exact ih _ _ _ _ _ h (by simpa using hinv)

/-- **C4.** A backend response received by the first-good-response dispatcher
is returned as the representative response exactly when its status is 2xx or
one of 304, 412, 416 (the returned response is the last received one, all
earlier received responses being non-terminal, and a stub is returned only
when no received response was terminal); on such a return `Accept-Ranges` is
set to `bytes` and a non-empty `Etag` has its surrounding double quotes
stripped. -/
theorem first_response_terminal_success_iff
    (R : Nat) (devs handoffs : List Device) (factoryOk : Device → Bool)
    (events : List FEvent) :
    match firstResponseRun R devs handoffs factoryOk events with
    | (FResult.real x, out) =>
        ∃ rs r, out.received = rs ++ [r] ∧
          (∀ r2 ∈ rs, ¬ ((200 ≤ r2.status ∧ r2.status < 300) ∨ r2.status = 304 ∨
            r2.status = 412 ∨ r2.status = 416)) ∧
          ((200 ≤ r.status ∧ r.status < 300) ∨ r.status = 304 ∨ r.status = 412 ∨
            r.status = 416) ∧
          x = transformSuccess r ∧
          Headers.get x.headers "Accept-Ranges" = "bytes" ∧
          (¬ Headers.get r.headers "Etag" = "" →
            Headers.get x.headers "Etag" =
              goTrimChar (Headers.get r.headers "Etag") dquote)
    | (FResult.stub _, out) =>
        ∀ r2 ∈ out.received, ¬ ((200 ≤ r2.status ∧ r2.status < 300) ∨
          r2.status = 304 ∨ r2.status = 412 ∨ r2.status = 416) := by
  cases h : firstResponseRun R devs handoffs factoryOk events with
  | mk res out =>
    cases res with
    | real x =>
      obtain ⟨rs, r, hrec, hrs, hterm, hx⟩ :=
        frLoop_real_impl R (devs ++ handoffs) factoryOk (R + 2) 0 events
          (FState.mk 0 0 [] []) x out h (by simp)
      refine ⟨rs, r, hrec, ?_, (isTerminalStatus_iff r.status).mp hterm, hx, ?_, ?_⟩
      · intro r2 h2 hcontr
        have := (isTerminalStatus_iff r2.status).mpr hcontr
        rw [hrs r2 h2] at this
        exact Bool.false_ne_true this
      · rw [hx]
        exact transformSuccess_acceptRanges r
      · intro hne
        rw [hx]
        exact transformSuccess_etag r hne
    | stub s =>
      have hall := frLoop_stub_received R (devs ++ handoffs) factoryOk (R + 2) 0 events
        (FState.mk 0 0 [] []) s out h (by simp)
      intro r2 h2 hcontr
      have := (isTerminalStatus_iff r2.status).mpr hcontr
      rw [hall r2 h2] at this
      exact Bool.false_ne_true this

/-! ## S3 middleware request handling (`s3AuthHandler.ServeHTTP`) and C3/C8 -/

/-- The scenario request headers of claim C3, as `net/http` stores them
(keys canonicalized on parse/`Set`). -/
def c3Headers : Headers :=
  Headers.set (Headers.set (Headers.set Headers.empty
    "Date" "Tue, 27 Mar 2007 19:36:42 +0000") "x-amz-acl" "public-read")
    "X-Amz-Meta-Foo" "bar"

/-- **C3.** For `GET /bucket/key` with the scenario headers and raw query
`acl&partNumber=2&foo=bar`, the middleware's canonical string-to-sign is
exactly the expected string: the `x-amz-*` headers are sorted by
(canonical-case) name and emitted with lowercased names, and
`partNumber=2` is dropped because the allowlist is matched against the full
raw token. -/
theorem s3_string_to_sign_scenario :
    stringToSign "GET" c3Headers "/bucket/key" "acl&partNumber=2&foo=bar" =
      "GET\n\n\nTue, 27 Mar 2007 19:36:42 +0000\nx-amz-acl:public-read\nx-amz-meta-foo:bar\n/bucket/key?acl" := by
  decide

/-- `S3AuthInfo` from s3auth.go (stashed on the proxy context). -/
structure S3AuthInfo where
  key : String
  signature : String
  stringToSign : String
  account : String
deriving DecidableEq, Repr

/-- The part of the `ProxyContext` the middleware touches: the installed
`Authorize` callback (modelled by the constant value the installed closure
returns, `none` = no callback installed) and the stashed `S3Auth`. -/
structure S3Ctx where
  authorize : Option (Bool × Nat)
  s3Auth : Option S3AuthInfo
deriving DecidableEq, Repr

/-- The request state `ServeHTTP` reads: method, headers, URL path, raw
query, the (unparsed-by-default) `request.Form` field read by `Form.Get`,
and the parsed form read by `FormValue`. -/
structure S3Request where
  method : String
  headers : Headers
  path : String
  rawQuery : String
  form : List (String × String)
  parsedForm : List (String × String)
deriving DecidableEq, Repr

/-- `url.Values.Get`: first value under the key, `""` when absent. -/
def formGet (m : List (String × String)) (k : String) : String :=
  match m.find? (fun e => e.1 == k) with
  | some e => e.2
  | none => ""

/-- Index of the last occurrence of `c` (Go `strings.LastIndex` for a
one-byte needle; `none` is Go's `-1`). -/
def lastIndexOfAux (c : Char) : List Char → Option Nat
  | [] => none
  | x :: xs =>
    match lastIndexOfAux c xs with
    | some i => some (i + 1)
    | none => if x == c then some 0 else none

/-- `strings.LastIndex(s, ":")`-style search on a string. -/
def lastIndexOf (c : Char) (s : String) : Option Nat := lastIndexOfAux c s.toList

/-- The result of one `ServeHTTP` call: the updated context, and whether the
request was forwarded to `next`. -/
structure ServeResult where
  ctx : S3Ctx
  forwarded : Bool
deriving DecidableEq, Repr

/-- The tail of `ServeHTTP` after credential extraction (s3auth.go lines
112-179): pass through when no credentials or already processed, otherwise
compute the string-to-sign and stash `S3AuthInfo` (Account is left at its
zero value), then forward. -/
def s3AfterParse (ctx : S3Ctx) (req : S3Request) (key sig : String) : ServeResult :=
  if key == "" || sig == "" || ctx.s3Auth.isSome then
    { ctx := ctx, forwarded := true }
  else
    { ctx := { ctx with s3Auth := some (S3AuthInfo.mk key sig
        (stringToSign req.method req.headers req.path req.rawQuery) "") },
      forwarded := true }

/-- Embeds `s3AuthHandler.ServeHTTP` (s3auth.go lines 86-180): read the
`Authorization` header (falling back to `request.Form.Get("AWSAccessKeyId")`
when empty); when non-empty, strip the `"AWS "` marker and split at the last
`:` — if there is none, install the always-`(false, 403)` authorizer and
forward; otherwise take key/signature from the split.  When the auth string
is empty, credentials come from `FormValue`.  (The Go re-check
`authStr == ""` after a successful split is unreachable — a string
containing `:` is non-empty — and is therefore folded away.) -/
def serveHTTP (ctx : S3Ctx) (req : S3Request) : ServeResult :=
  if (if Headers.get req.headers "Authorization" == "" then
        formGet req.form "AWSAccessKeyId"
      else Headers.get req.headers "Authorization") == "" then
    s3AfterParse ctx req (formGet req.parsedForm "AWSAccessKeyId")
      (formGet req.parsedForm "Signature")
  else
    match lastIndexOf ':'
        (goTrimLeft "AWS "
          (if Headers.get req.headers "Authorization" == "" then
            formGet req.form "AWSAccessKeyId"
          else Headers.get req.headers "Authorization")) with
    | none =>
      { ctx := { ctx with authorize := some (false, 403) }, forwarded := true }
    | some i =>
      s3AfterParse ctx req
        (String.mk ((goTrimLeft "AWS "
          (if Headers.get req.headers "Authorization" == "" then
            formGet req.form "AWSAccessKeyId"
          else Headers.get req.headers "Authorization")).toList.take i))
        (String.mk ((goTrimLeft "AWS "
          (if Headers.get req.headers "Authorization" == "" then
            formGet req.form "AWSAccessKeyId"
          else Headers.get req.headers "Authorization")).toList.drop (i + 1)))

theorem lastIndexOfAux_eq_none (c : Char) (l : List Char) (h : c ∉ l) :
    lastIndexOfAux c l = none := by
  induction l with
  | nil => rfl
  | cons x xs ih =>
    have hxs := ih (fun hm => h (List.mem_cons_of_mem _ hm))
    have hx : (x == c) = false := by
      simp only [beq_eq_false_iff_ne, ne_eq]
      intro he
      exact h (he ▸ List.mem_cons_self _ _)
    simp [lastIndexOfAux, hxs, hx]

/-- **C8.** For every request whose (non-empty) `Authorization` header, after
stripping the `"AWS "` marker, contains no `:` character, `ServeHTTP`
installs the deferred authorizer that always returns `(false, 403)`,
forwards the request downstream, and leaves the context's `S3Auth` stash
untouched (in particular it stashes no `S3AuthInfo`). -/
theorem s3_malformed_auth_installs_denier (ctx : S3Ctx) (req : S3Request)
    (hauth : ¬ Headers.get req.headers "Authorization" = "")
    (hnc : ':' ∉ (goTrimLeft "AWS " (Headers.get req.headers "Authorization")).toList) :
    serveHTTP ctx req =
      { ctx := { ctx with authorize := some (false, 403) }, forwarded := true } ∧
    (serveHTTP ctx req).ctx.s3Auth = ctx.s3Auth := by
  have h0 : (Headers.get req.headers "Authorization" == "") = false := by
    simpa using hauth
  have hnone : lastIndexOf ':'
      (goTrimLeft "AWS " (Headers.get req.headers "Authorization")) = none :=
    lastIndexOfAux_eq_none _ _ hnc
  constructor
  · simp only [serveHTTP, h0, Bool.false_eq_true, if_false, hnone]
  · simp only [serveHTTP, h0, Bool.false_eq_true, if_false, hnone]

/-- The concrete malformed-auth request of the C8 scenario:
`Authorization: AWS nocolon`. -/
def c8Request : S3Request :=
  S3Request.mk "GET" (Headers.set Headers.empty "Authorization" "AWS nocolon")
    "/bucket/key" "" [] []

theorem s3_malformed_auth_installs_denier_witness :
    serveHTTP (S3Ctx.mk none none) c8Request =
      ServeResult.mk (S3Ctx.mk (some (false, 403)) none) true ∧
    (serveHTTP (S3Ctx.mk none none) c8Request).ctx.s3Auth = none :=
  s3_malformed_auth_installs_denier (S3Ctx.mk none none) c8Request
    (by decide) (by decide)

/-! ## Container PUT backend headers (`ProxyDirectClient.PutContainer`) -/

/-- A `conf.Policy` entry (name, index, deprecation and default flags). -/
structure Policy where
  name : String
  index : Int
  deprecated : Bool
  isDefault : Bool
deriving DecidableEq, Repr

/-- Modelled from the spec: `conf.PolicyList` (external to this source
slice) is an ordered set of policies of which exactly one is the default;
`PolicyList.Default()` returns the default policy's index. -/
def policyListDefault (pl : List Policy) : Int :=
  match pl.find? (fun p => p.isDefault) with
  | some p => p.index
  | none => 0

/-- Go's `%q` rendering of a plain policy name (no escaping needed for the
names in scope). -/
def quoteStr (s : String) : String := String.mk (dquote :: (s.toList ++ [dquote]))

/-- The indices `i, i+replicas, i+2*replicas, … < len` visited by the loop
in `addUpdateHeaders` (equal to the loop's visit set whenever
`replicas ≥ 1`; the Go loop would not terminate for `replicas = 0`). -/
def stripeIndices (len i replicas : Nat) : List Nat :=
  (List.range len).filter (fun k => decide (i ≤ k) && ((k - i) % replicas == 0))

/-- Embeds `addUpdateHeaders`: when `i < len(devices)`, set `<pfx>-Host` to
the comma-joined `ip:port` of every `replicas`-th device starting at index
`i`, and `<pfx>-Device` to the comma-joined device names (the Go code
builds the strings with a trailing comma and trims it). -/
def addUpdateHeaders (pfx : String) (hdrs : Headers) (devices : List Device)
    (i replicas : Nat) : Headers :=
  if i < devices.length then
    Headers.set
      (Headers.set hdrs (pfx ++ "-Host")
        (String.intercalate ","
          (((stripeIndices devices.length i replicas).filterMap
            (fun k => devices.get? k)).map (fun d => d.ip ++ ":" ++ toString d.port))))
      (pfx ++ "-Device")
      (String.intercalate ","
        (((stripeIndices devices.length i replicas).filterMap
          (fun k => devices.get? k)).map (fun d => d.device)))
  else hdrs

/-- The header-copy loop `for key := range headers: Set(key, headers.Get(key))`
(its random map-range order is immaterial: keys are distinct and `Set` is
keyed). -/
def copyHeaders (dst src : Headers) : Headers :=
  (Headers.keys src).foldl (fun acc k => Headers.set acc k (Headers.get src k)) dst

/-- What `PutContainer` does before/while building backend requests: reject
with a 400 stub, or produce the per-worker-index request headers. -/
inductive PutContainerResult where
  | err (status : Nat) (body : String)
  | ok (mkRequest : Nat → Headers)

/-- Accessor for stating facts about the built requests. -/
def putContainerBuild (res : PutContainerResult) (i : Nat) : Headers :=
  match res with
  | PutContainerResult.err _ _ => Headers.empty
  | PutContainerResult.ok f => f i

/-- Embeds the policy resolution and per-device request-header construction
of `ProxyDirectClient.PutContainer` (part_000 lines 497-540): resolve
`X-Storage-Policy` against the policy list (400 stub when unknown or
deprecated), otherwise leave `policyIndex = -1`; each per-device request
(worker index `i`) copies the user headers into a fresh request and sets
`X-Backend-Storage-Policy-Index`, `X-Backend-Storage-Policy-Default`,
`X-Account-Partition` and the `X-Account-{Host,Device}` update headers.
(URL construction and the quorum dispatch itself are not needed here.) -/
def putContainerRequests (pl : List Policy) (headers : Headers)
    (accountPartition : Nat) (accountDevices : List Device)
    (containerReplicaCount : Nat) : PutContainerResult :=
  if ¬(Headers.get headers "X-Storage-Policy" == "") then
    match pl.find? (fun v => v.name == Headers.get headers "X-Storage-Policy") with
    | none =>
      PutContainerResult.err 400
        ("Invalid X-Storage-Policy " ++ quoteStr (Headers.get headers "X-Storage-Policy"))
    | some policy =>
      if policy.deprecated then
        PutContainerResult.err 400
          ("Storage Policy " ++ quoteStr (Headers.get headers "X-Storage-Policy") ++
            " is deprecated")
      else
        PutContainerResult.ok (fun i =>
          addUpdateHeaders "X-Account"
            (Headers.set (Headers.set (Headers.set (copyHeaders Headers.empty headers)
              "X-Backend-Storage-Policy-Index" (toString policy.index))
              "X-Backend-Storage-Policy-Default" (toString (policyListDefault pl)))
              "X-Account-Partition" (toString accountPartition))
            accountDevices i containerReplicaCount)
  else
    PutContainerResult.ok (fun i =>
      addUpdateHeaders "X-Account"
        (Headers.set (Headers.set (Headers.set (copyHeaders Headers.empty headers)
          "X-Backend-Storage-Policy-Index" (toString (-1 : Int)))
          "X-Backend-Storage-Policy-Default" (toString (policyListDefault pl)))
          "X-Account-Partition" (toString accountPartition))
        accountDevices i containerReplicaCount)

theorem get_addUpdateHeaders_ne (pfx : String) (h : Headers) (devices : List Device)
    (i replicas : Nat) (k : String)
    (h1 : ¬ canonMIMEKey k = canonMIMEKey (pfx ++ "-Host"))
    (h2 : ¬ canonMIMEKey k = canonMIMEKey (pfx ++ "-Device")) :
    Headers.get (addUpdateHeaders pfx h devices i replicas) k = Headers.get h k := by
  unfold addUpdateHeaders
  split
  · rw [Headers.get_set_ne _ _ _ _ h2, Headers.get_set_ne _ _ _ _ h1]
  · rfl

/-- The single-policy list (index 0, default) used as the C2 concrete
input. -/
def c2PolicyList : List Policy := [Policy.mk "gold" 0 false true]

/-- **C2 counterexample.** With the single default policy `gold` (index 0)
and a container PUT carrying no `X-Storage-Policy` header, the backend
request built for worker 0 carries `X-Backend-Storage-Policy-Index: -1` —
not the default policy's index `0` as the claim states. -/
theorem put_container_no_policy_counterexample :
    Headers.get
      (putContainerBuild
        (putContainerRequests c2PolicyList Headers.empty 7 [] 3) 0)
      "X-Backend-Storage-Policy-Index" = "-1" ∧
    toString (policyListDefault c2PolicyList) = "0" ∧
    ¬ Headers.get
      (putContainerBuild
        (putContainerRequests c2PolicyList Headers.empty 7 [] 3) 0)
      "X-Backend-Storage-Policy-Index" = toString (policyListDefault c2PolicyList) := by
  refine ⟨by decide, by decide, by decide⟩

/-- **C2 (amended).** For every PutContainer call whose request headers do
not contain `X-Storage-Policy`, every backend request carries
`X-Backend-Storage-Policy-Index: -1` (policy unspecified); the default
policy's index is passed separately as `X-Backend-Storage-Policy-Default`. -/
theorem put_container_no_policy_sets_index_minus_one
    (pl : List Policy) (headers : Headers) (accountPartition : Nat)
    (accountDevices : List Device) (containerReplicaCount : Nat)
    (hnp : Headers.get headers "X-Storage-Policy" = "") :
    ∃ f, putContainerRequests pl headers accountPartition accountDevices
        containerReplicaCount = PutContainerResult.ok f ∧
      ∀ i, Headers.get (f i) "X-Backend-Storage-Policy-Index" = "-1" ∧
        Headers.get (f i) "X-Backend-Storage-Policy-Default" =
          toString (policyListDefault pl) := by
  unfold putContainerRequests
  rw [hnp]
  rw [if_neg (by simp)]
  refine ⟨_, rfl, ?_⟩
  intro i
  constructor
  · rw [get_addUpdateHeaders_ne _ _ _ _ _ _ (by decide) (by decide)]
    rw [Headers.get_set_ne _ _ _ _ (by decide), Headers.get_set_ne _ _ _ _ (by decide)]
    rw [Headers.get_set_same]
    decide
  · rw [get_addUpdateHeaders_ne _ _ _ _ _ _ (by decide) (by decide)]
    rw [Headers.get_set_ne _ _ _ _ (by decide)]
    rw [Headers.get_set_same]

theorem put_container_no_policy_sets_index_minus_one_witness :
    ∃ f, putContainerRequests c2PolicyList Headers.empty 7 [] 3 =
        PutContainerResult.ok f ∧
      ∀ i, Headers.get (f i) "X-Backend-Storage-Policy-Index" = "-1" ∧
        Headers.get (f i) "X-Backend-Storage-Policy-Default" =
          toString (policyListDefault c2PolicyList) :=
  put_container_no_policy_sets_index_minus_one c2PolicyList Headers.empty 7 [] 3
    (by decide)

/-! ## Container-info cache (C7, C10) and listing decode (C9) -/

/-- `ContainerInfo` (part_000 / the `client` package): counters, policy
index, metadata maps and ACL/sync headers. -/
structure ContainerInfo where
  objectCount : Int
  objectBytes : Int
  storagePolicyIndex : Int
  metadata : List (String × String)
  sysMetadata : List (String × String)
  readACL : String
  writeACL : String
  syncKey : String
deriving DecidableEq, Repr

/-- A value held by the per-request local map: the shared
`NilContainerInfo` sentinel (compared by pointer in Go) or real info. -/
inductive CIVal where
  | nilSentinel
  | info (ci : ContainerInfo)
deriving DecidableEq, Repr

/-- The two cache tiers of the container-info cache: the per-request local
map `lc` and the external shared memcache ring `mc` (which stores a value
together with its TTL).  A `none` tier is a nil Go reference. -/
structure CacheState where
  lc : Option (List (String × CIVal))
  mc : Option (List (String × (ContainerInfo × Nat)))
deriving DecidableEq, Repr

/-- Association-list lookup (Go map indexing / a present cache entry). -/
def mapGet {α : Type} (m : List (String × α)) (k : String) : Option α :=
  match m.find? (fun e => e.1 == k) with
  | some e => some e.2
  | none => none

/-- Association-list removal.  For `lc` this is Go's `delete(lc, key)`;
for `mc` it is modelled from the spec: `MemcacheRing.Delete(key)` (external
to this source slice) removes the entry from the shared cache. -/
def mapDelete {α : Type} (m : List (String × α)) (k : String) : List (String × α) :=
  m.filter (fun e => !(e.1 == k))

/-- Modelled from the spec: `MemcacheRing.Set(key, value, ttl)` (external to
this source slice) stores the structured value under the key with the given
TTL in the shared cache. -/
def mapSet {α : Type} (m : List (String × α)) (k : String) (v : α) :
    List (String × α) :=
  (k, v) :: mapDelete m k

/-- Lookup through an optional tier (`none` when the tier is absent). -/
def tierLookup {α : Type} (t : Option (List (String × α))) (k : String) : Option α :=
  match t with
  | some m => mapGet m k
  | none => none

/-- The cache key `fmt.Sprintf("container/%s/%s", account, container)`. -/
def containerKey (account container : String) : String :=
  "container/" ++ account ++ "/" ++ container

/-- Embeds `proxyClient.invalidateContainerInfo` (lines 354-362): delete the
key from the local map when present, and from the shared cache when
present. -/
def invalidateContainerInfo (st : CacheState) (account container : String) :
    CacheState :=
  match st.lc, st.mc with
  | some l, some m =>
    CacheState.mk (some (mapDelete l (containerKey account container)))
      (some (mapDelete m (containerKey account container)))
  | some l, none =>
    CacheState.mk (some (mapDelete l (containerKey account container))) none
  | none, some m =>
    CacheState.mk none (some (mapDelete m (containerKey account container)))
  | none, none => CacheState.mk none none

/-- The three mutating container calls of the `proxyClient` facade. -/
inductive ContainerMutation where
  | put
  | post
  | delete
deriving DecidableEq, Repr

/-- Embeds `proxyClient.PutContainer` / `PostContainer` / `DeleteContainer`
(lines 379-399): each delegates to the `ProxyDirectClient` — whose backend
response `resp` is an opaque input here, since that call never touches the
caches — and then, via `defer`, invalidates the container-info entry,
whether the response indicates success or failure. -/
def proxyMutateContainer (op : ContainerMutation) (st : CacheState)
    (account container : String) (resp : Nat) : CacheState × Nat :=
  match op with
  | ContainerMutation.put => (invalidateContainerInfo st account container, resp)
  | ContainerMutation.post => (invalidateContainerInfo st account container, resp)
  | ContainerMutation.delete => (invalidateContainerInfo st account container, resp)

theorem mapGet_mapDelete {α : Type} (m : List (String × α)) (k : String) :
    mapGet (mapDelete m k) k = none := by
  unfold mapGet mapDelete
  rw [List.find?_eq_none.mpr]
  intro e he
  have := (List.mem_filter.mp he).2
  simp only [Bool.not_eq_eq_eq_not, Bool.not_true, beq_eq_false_iff_ne, ne_eq] at this
  simpa using this

theorem invalidate_lookup_none (st : CacheState) (a c : String) :
    tierLookup (invalidateContainerInfo st a c).lc (containerKey a c) = none ∧
    tierLookup (invalidateContainerInfo st a c).mc (containerKey a c) = none := by
  cases hl : st.lc <;> cases hm : st.mc <;>
    simp [invalidateContainerInfo, hl, hm, tierLookup, mapGet_mapDelete]

/-- **C7.** After any of `PutContainer`, `PostContainer` or
`DeleteContainer` on `(account, container)` through the `proxyClient`
facade returns — whatever the backend response — the entry keyed
`container/<account>/<container>` is absent from every cache tier that is
present (an absent tier trivially has no entry). -/
theorem container_mutation_invalidates_both_tiers
    (op : ContainerMutation) (st : CacheState) (account container : String)
    (resp : Nat) :
    tierLookup (proxyMutateContainer op st account container resp).1.lc
        (containerKey account container) = none ∧
    tierLookup (proxyMutateContainer op st account container resp).1.mc
        (containerKey account container) = none := by
  cases op <;> exact invalidate_lookup_none st account container

/-- An account-listing record decoded by the facade: its fields are defined
outside this source slice; only decodability matters here.  Modelled from
the spec (§4.8: decode JSON on 2xx). -/
structure ContainerRecord where
  name : String
deriving DecidableEq, Repr

/-- A container-listing record; see `ContainerRecord`. -/
structure ObjectRecord where
  name : String
deriving DecidableEq, Repr

/-- A backend response as the `directClient` facade sees it: status,
whether it is a synthetic `ResponseStub`, and a body text. -/
structure DCResponse where
  status : Nat
  stub : Bool
  body : String
deriving DecidableEq, Repr

/-- Embeds `ResponseStub(status, body)`. -/
def ResponseStub (status : Nat) (body : String) : DCResponse :=
  DCResponse.mk status true body

/-- Embeds the listing decode of `directClient.GetAccount` (lines
1042-1052): pass non-2xx responses through with a nil list; on 2xx, decode
the body (`json.NewDecoder(resp.Body).Decode` is Go's standard library,
modelled as the `decoded` input) — on error close the body and return a
synthetic 500 carrying the error text, on success close the body and
return the listing.  The third component reports whether the backend body
was closed. -/
def getAccountDecode (resp : DCResponse)
    (decoded : Except String (List ContainerRecord)) :
    Option (List ContainerRecord) × DCResponse × Bool :=
  if ¬(resp.status / 100 == 2) then (none, resp, false)
  else
    match decoded with
    | Except.error msg => (none, ResponseStub 500 msg, true)
    | Except.ok listing => (some listing, resp, true)

/-- Embeds the listing decode of `directClient.GetContainer` (lines
1102-1112); same shape as `getAccountDecode`. -/
def getContainerDecode (resp : DCResponse)
    (decoded : Except String (List ObjectRecord)) :
    Option (List ObjectRecord) × DCResponse × Bool :=
  if ¬(resp.status / 100 == 2) then (none, resp, false)
  else
    match decoded with
    | Except.error msg => (none, ResponseStub 500 msg, true)
    | Except.ok listing => (some listing, resp, true)

/-- **C9.** When the backend returns a 2xx listing response whose body fails
to decode, both `GetAccount` and `GetContainer` give the caller a nil record
list and a synthetic 500 (not the backend's 2xx response), and the backend
body is closed. -/
theorem listing_decode_failure_returns_500
    (resp : DCResponse) (msg : String) (h2 : resp.status / 100 = 2) :
    getAccountDecode resp (Except.error msg) = (none, ResponseStub 500 msg, true) ∧
    getContainerDecode resp (Except.error msg) =
      (none, ResponseStub 500 msg, true) := by
  unfold getAccountDecode getContainerDecode
  rw [if_neg (by simp [h2]), if_neg (by simp [h2])]
  exact ⟨rfl, rfl⟩

theorem listing_decode_failure_returns_500_witness :
    getAccountDecode (DCResponse.mk 200 false "not json")
        (Except.error "invalid character") =
      (none, ResponseStub 500 "invalid character", true) ∧
    getContainerDecode (DCResponse.mk 200 false "not json")
        (Except.error "invalid character") =
      (none, ResponseStub 500 "invalid character", true) :=
  listing_decode_failure_returns_500 (DCResponse.mk 200 false "not json")
    "invalid character" (by decide)

/-- Digit-string to number (`none` on a non-digit; helper for
`parseIntGo`). -/
def digitsToNatAux : List Char → Nat → Option Nat
  | [], acc => some acc
  | c :: cs, acc =>
    if c.isDigit then digitsToNatAux cs (acc * 10 + (c.toNat - 48)) else none

/-- Parse a non-empty all-digit string (`none` otherwise). -/
def digitsToNat : List Char → Option Nat
  | [] => none
  | c :: cs => digitsToNatAux (c :: cs) 0

/-- Embeds Go's `strconv.ParseInt(s, 10, 64)` (and `strconv.Atoi`) for the
header values in scope: an optional sign followed by at least one decimal
digit; anything else is an error.  (64-bit overflow is not modelled; the
counters in scope are small.) -/
def parseIntGo (s : String) : Option Int :=
  match s.toList with
  | [] => none
  | c :: rest =>
    if c == '-' then (digitsToNat rest).map (fun n => -(n : Int))
    else if c == '+' then (digitsToNat rest).map (fun n => (n : Int))
    else (digitsToNat (c :: rest)).map (fun n => (n : Int))

/-- The user-metadata collection loop of `GetContainerInfo`
(`for k := range resp.Header`, keys with prefix `X-Container-Meta-`,
prefix stripped: `k[17:]`). -/
def collectMeta (h : Headers) : List (String × String) :=
  (Headers.keys h).filterMap (fun k =>
    if strStarts k "X-Container-Meta-" then
      some (String.mk (k.toList.drop 17), Headers.get h k)
    else none)

/-- The system-metadata collection (prefix `X-Container-Sysmeta-`,
stripped: `k[20:]`). -/
def collectSysMeta (h : Headers) : List (String × String) :=
  (Headers.keys h).filterMap (fun k =>
    if ¬ strStarts k "X-Container-Meta-" ∧ strStarts k "X-Container-Sysmeta-" then
      some (String.mk (k.toList.drop 20), Headers.get h k)
    else none)

/-- The fill construction of `GetContainerInfo` from a 2xx HEAD response
(lines 595-621): parse the three counters — any parse failure is an error —
then collect metadata, system metadata and the three ACL/sync headers (a
missing ACL/sync header leaves the zero value `""`, which coincides with
`Get` on an absent key). -/
def buildCIFromHead (h : Headers) (account container : String) :
    Except String ContainerInfo :=
  match parseIntGo (Headers.get h "X-Container-Object-Count") with
  | none =>
    Except.error ("Error retrieving info for container " ++ account ++ "/" ++ container)
  | some oc =>
    match parseIntGo (Headers.get h "X-Container-Bytes-Used") with
    | none =>
      Except.error ("Error retrieving info for container " ++ account ++ "/" ++ container)
    | some ob =>
      match parseIntGo (Headers.get h "X-Backend-Storage-Policy-Index") with
      | none =>
        Except.error
          ("Error retrieving info for container " ++ account ++ "/" ++ container)
      | some sp =>
        Except.ok (ContainerInfo.mk oc ob sp (collectMeta h) (collectSysMeta h)
          (Headers.get h "X-Container-Read") (Headers.get h "X-Container-Write")
          (Headers.get h "X-Container-Sync-Key"))

/-- The HEAD response consumed by a cache fill (the `HeadContainer`
first-response dispatch behind it is abstracted as this input; its body is
closed immediately by the Go code). -/
structure HeadResp where
  status : Nat
  headers : Headers
deriving DecidableEq, Repr

/-- Embeds `ProxyDirectClient.GetContainerInfo` (lines 578-630): look up the
local map, then the shared cache (`GetStructured`; an error is a miss),
then fill from a HEAD — non-2xx is an error; a successful parse stores the
info into the shared cache with TTL 30 when that cache is present.  The
`NilContainerInfo` pointer-equality check can only fire for a local-map hit
(both `GetStructured` and the fill allocate fresh values), so it is placed
on that branch. -/
def getContainerInfo (st : CacheState) (account container : String)
    (headResp : HeadResp) : Except String ContainerInfo × CacheState :=
  match tierLookup st.lc (containerKey account container) with
  | some CIVal.nilSentinel => (Except.error "No container info for testing", st)
  | some (CIVal.info ci) => (Except.ok ci, st)
  | none =>
    match (tierLookup st.mc (containerKey account container)).map (fun p => p.1) with
    | some ci => (Except.ok ci, st)
    | none =>
      if ¬(headResp.status / 100 == 2) then
        (Except.error (toString headResp.status ++
          " error retrieving info for container " ++ account ++ "/" ++ container), st)
      else
        match buildCIFromHead headResp.headers account container with
        | Except.error e => (Except.error e, st)
        | Except.ok ci =>
          match st.mc with
          | some m =>
            (Except.ok ci,
              CacheState.mk st.lc
                (some (mapSet m (containerKey account container) (ci, 30))))
          | none => (Except.ok ci, st)

/-- **C10.** `GetContainerInfo` never writes the per-request local map — on
every path the post-state's `lc` is the pre-state's — and when both tiers
miss and the HEAD fill succeeds, the built `ContainerInfo` is stored only
into the shared cache, with TTL 30 and only when that cache is present. -/
theorem get_container_info_fill_frame
    (st : CacheState) (account container : String) (headResp : HeadResp) :
    (getContainerInfo st account container headResp).2.lc = st.lc ∧
    (∀ ci,
      tierLookup st.lc (containerKey account container) = none →
      tierLookup st.mc (containerKey account container) = none →
      headResp.status / 100 = 2 →
      buildCIFromHead headResp.headers account container = Except.ok ci →
      (getContainerInfo st account container headResp).2.mc =
        Option.map (fun m => mapSet m (containerKey account container) (ci, 30))
          st.mc) := by
  constructor
  · unfold getContainerInfo
    split
    · rfl
    · rfl
    · split
      · rfl
      · split
        · rfl
        · split
          · rfl
          · split
            · rfl
            · rfl
  · intro ci hlc hmc h2 hbuild
    unfold getContainerInfo
    rw [hlc, hmc]
    rw [if_neg (by simp [h2])]
    rw [hbuild]
    cases hm : st.mc with
    | none => simp [hm]
    | some m => simp

/-- The concrete HEAD headers of the miss-fill scenario (spec §8 #4). -/
def c10HeadHeaders : Headers :=
  Headers.set (Headers.set (Headers.set (Headers.set Headers.empty
    "X-Container-Object-Count" "5") "X-Container-Bytes-Used" "1024")
    "X-Backend-Storage-Policy-Index" "1") "X-Container-Meta-Color" "red"

theorem get_container_info_fill_frame_witness :
    (getContainerInfo (CacheState.mk (some []) (some []))
      "a" "c" (HeadResp.mk 200 c10HeadHeaders)).2.lc = some [] ∧
    (getContainerInfo (CacheState.mk (some []) (some []))
      "a" "c" (HeadResp.mk 200 c10HeadHeaders)).2.mc =
      some [(containerKey "a" "c",
        (ContainerInfo.mk 5 1024 1 [("Color", "red")] [] "" "" "", 30))] :=
  ⟨(get_container_info_fill_frame (CacheState.mk (some []) (some []))
      "a" "c" (HeadResp.mk 200 c10HeadHeaders)).1,
   (get_container_info_fill_frame (CacheState.mk (some []) (some []))
      "a" "c" (HeadResp.mk 200 c10HeadHeaders)).2
      (ContainerInfo.mk 5 1024 1 [("Color", "red")] [] "" "" "")
      (by decide) (by decide) (by decide) (by rfl)⟩

end Hummingbird
